import Mathlib

/-!
# Verification of the multimodal retrieval-augmented product search

A shallow embedding, in Lean 4, of the search orchestrator of the
`playwithllm/store` repository, together with theorems settling the
specification claims about it.

The embedded code lives in:

* `src/server/routes/product/MultimodalProcessor.js` — the class
  `MultimodalProcessor` with `searchProductEmbedding`, `ragSearch`,
  `expandTextWithVLLM`, `getEmbedding`, `testConnection`,
  `storeProductEmbedding`, `enhancedImageSearch`;
* `src/server/routes/products.js` and `src/unnamed/part_008` — the route-level
  `ragSearch`, `getAll`, `validateImageData`, `processImageSearch` and the
  `/image-search` request handler;
* `src/unnamed/part_011` — `populateProducts` (embedding-record id generation).

JavaScript numbers that carry similarity scores are modelled as rationals
(`ℚ`); all score arithmetic performed by the source (comparison, and one
multiplication by `0.9`) is exact on the magnitudes involved.  External
services (MongoDB, Milvus, the LLM endpoint, the embedding model) are
modelled as oracle inputs: the orchestrator's own logic is translated
statement by statement from the JavaScript.
-/

/-- Provenance tag attached by the orchestrator (`_searchMethod` /
`matchType` in the source): `semantic`, `exact`, or `visual`. -/
inductive MatchMethod where
  | semantic
  | exact
  | visual
deriving DecidableEq, Repr

/-- The `searchType` field produced by `searchProductEmbedding`
(`"text"` for product-name-vector hits, `"image"` for image-vector hits). -/
inductive SType where
  | text
  | image
deriving DecidableEq, Repr

/-- A raw vector-index hit as returned by `milvusClient.search` after the
`results.map` projection: `{ productId: result.metadata.productId,
score: result.score }` (the `created_at` metadata field is irrelevant to
every claim and omitted). -/
structure Hit where
  productId : String
  score : ℚ
deriving DecidableEq, Repr

/-- An entry of `searchProductEmbedding`'s working lists
(`textResults` / `imageResults` / the merged map's values). -/
structure SPEntry where
  productId : String
  score : ℚ
  searchType : SType
deriving DecidableEq, Repr

/-- A MongoDB product document, restricted to the fields the embedded search
code reads: the stable identifier `sourceId` and the three text fields the
keyword branch filters on. -/
structure Product where
  sourceId : String
  name : String
  category : String
  description : String
deriving DecidableEq, Repr

/-- A product as returned by the orchestrator's merge: the catalog document
decorated with `_searchMethod` (and `_searchScore` for semantic hits).
`method = none` models a plain catalog document that was never tagged
(the `getAll` fallback listing). -/
structure RankedProduct where
  sourceId : String
  method : Option MatchMethod
  score : Option ℚ
deriving DecidableEq, Repr

namespace MultimodalProcessor

/-- `searchProductEmbedding`, text branch: `textSearchResults.results.map`
keeps the raw score and tags `searchType: "text"`. -/
def textEntry (h : Hit) : SPEntry :=
  { productId := h.productId, score := h.score, searchType := SType.text }

/-- `searchProductEmbedding`, image branch: `imageSearchResults.results.map`
multiplies the raw score by `0.9` ("Slightly lower weight for image
results") and tags `searchType: "image"`. -/
def imageEntry (h : Hit) : SPEntry :=
  { productId := h.productId, score := h.score * (9 / 10 : ℚ),
    searchType := SType.image }

/-- `const combinedResults = [...textResults, ...imageResults]`. -/
def combinedResults (textHits imageHits : List Hit) : List SPEntry :=
  textHits.map textEntry ++ imageHits.map imageEntry

/-- One step of the `combinedResults.forEach` loop over the JavaScript `Map`:
if no entry with this `productId` exists, insert at the end (insertion
order); if one exists with a strictly smaller score, replace it in place
(`Map.set` keeps the original position); otherwise keep the map unchanged.
The accumulator holds the map's values in insertion order. -/
def insertKeepHigher (acc : List SPEntry) (e : SPEntry) : List SPEntry :=
  if acc.any (fun x => x.productId == e.productId) then
    acc.map (fun x =>
      if x.productId = e.productId ∧ x.score < e.score then e else x)
  else
    acc ++ [e]

/-- The whole `forEach` loop building `productMap` from `combinedResults`. -/
def mergeKeepHigher (l : List SPEntry) : List SPEntry :=
  l.foldl insertKeepHigher []

/-- Stable insertion step for descending-score order, modelling the stable
`Array.prototype.sort((a, b) => b.score - a.score)`: an element moves past
another only when its score is strictly greater. -/
def insertDesc (x : SPEntry) : List SPEntry → List SPEntry
  | [] => [x]
  | y :: ys => if y.score ≤ x.score then x :: y :: ys else y :: insertDesc x ys

/-- Stable sort by descending score
(`Array.from(productMap.values()).sort((a, b) => b.score - a.score)`). -/
def sortByScoreDesc (l : List SPEntry) : List SPEntry :=
  l.foldr insertDesc []

/-- `MultimodalProcessor.searchProductEmbedding`, as a function of the two
Milvus result lists it merges: discount the image hits, merge duplicates
keeping the higher score, sort by descending score, `slice(0, limit)`.
(The caller-side facts that the text search was issued with `limit * 2`
and both with `nprobe: 16` live in the oracle calls, see
`Orchestrator.searchProductEmbeddingM`.) -/
def searchProductEmbedding (textHits imageHits : List Hit) (limit : ℕ) :
    List SPEntry :=
  (sortByScoreDesc (mergeKeepHigher (combinedResults textHits imageHits))).take
    limit

lemma mem_insertKeepHigher {acc : List SPEntry} {e x : SPEntry}
    (hx : x ∈ insertKeepHigher acc e) : x ∈ acc ∨ x = e := by
  unfold insertKeepHigher at hx
  by_cases hany : acc.any (fun y => y.productId == e.productId)
  · rw [if_pos hany] at hx
    obtain ⟨y, hy, hgy⟩ := List.mem_map.1 hx
    by_cases hc : y.productId = e.productId ∧ y.score < e.score
    · right; rw [if_pos hc] at hgy; exact hgy.symm
    · left; rw [if_neg hc] at hgy; exact hgy ▸ hy
  · rw [if_neg hany] at hx
    simpa using hx

lemma keys_insertKeepHigher (acc : List SPEntry) (e : SPEntry) :
    (insertKeepHigher acc e).map (fun x => x.productId) =
      if acc.any (fun y => y.productId == e.productId) then
        acc.map (fun x => x.productId)
      else acc.map (fun x => x.productId) ++ [e.productId] := by
  unfold insertKeepHigher
  by_cases hany : acc.any (fun y => y.productId == e.productId)
  · rw [if_pos hany, if_pos hany, List.map_map]
    apply List.map_congr_left
    intro x _
    by_cases hc : x.productId = e.productId ∧ x.score < e.score
    · simp only [Function.comp_apply, if_pos hc]
      exact hc.1.symm
    · simp only [Function.comp_apply, if_neg hc]
  · rw [if_neg hany, if_neg hany, List.map_append]
    rfl

lemma nodupKeys_insertKeepHigher {acc : List SPEntry} (e : SPEntry)
    (h : (acc.map (fun x => x.productId)).Nodup) :
    ((insertKeepHigher acc e).map (fun x => x.productId)).Nodup := by
  rw [keys_insertKeepHigher]
  by_cases hany : acc.any (fun y => y.productId == e.productId)
  · rwa [if_pos hany]
  · rw [if_neg hany]
    rw [List.nodup_append]
    refine ⟨h, List.nodup_singleton _, ?_⟩
    intro a ha
    obtain ⟨y, hy, hye⟩ := List.mem_map.1 ha
    simp only [List.mem_singleton]
    intro hcontra
    simp only [List.any_eq_true, beq_iff_eq] at hany
    exact hany ⟨y, hy, hye.trans hcontra⟩

lemma dominates_insertKeepHigher {acc : List SPEntry} (e : SPEntry)
    {a : SPEntry} (ha : a ∈ acc) :
    ∃ x ∈ insertKeepHigher acc e,
      x.productId = a.productId ∧ a.score ≤ x.score := by
  unfold insertKeepHigher
  by_cases hany : acc.any (fun y => y.productId == e.productId)
  · rw [if_pos hany]
    by_cases hc : a.productId = e.productId ∧ a.score < e.score
    · refine ⟨e, List.mem_map.2 ⟨a, ha, by rw [if_pos hc]⟩, hc.1.symm,
        le_of_lt hc.2⟩
    · exact ⟨a, List.mem_map.2 ⟨a, ha, by rw [if_neg hc]⟩, rfl, le_refl _⟩
  · rw [if_neg hany]
    exact ⟨a, List.mem_append_left _ ha, rfl, le_refl _⟩

lemma atKey_insertKeepHigher (acc : List SPEntry) (e : SPEntry) :
    ∃ x ∈ insertKeepHigher acc e,
      x.productId = e.productId ∧ e.score ≤ x.score := by
  unfold insertKeepHigher
  by_cases hany : acc.any (fun y => y.productId == e.productId)
  · rw [if_pos hany]
    simp only [List.any_eq_true, beq_iff_eq] at hany
    obtain ⟨a, ha, hpid⟩ := hany
    by_cases hlt : a.score < e.score
    · refine ⟨e, List.mem_map.2 ⟨a, ha, ?_⟩, rfl, le_refl _⟩
      rw [if_pos ⟨hpid, hlt⟩]
    · refine ⟨a, List.mem_map.2 ⟨a, ha, ?_⟩, hpid, not_lt.1 hlt⟩
      rw [if_neg (by tauto)]
  · rw [if_neg hany]
    exact ⟨e, List.mem_append_right _ (List.mem_singleton_self e), rfl,
      le_refl _⟩

lemma eq_of_nodupKeys {l : List SPEntry}
    (h : (l.map (fun x => x.productId)).Nodup) {a b : SPEntry}
    (ha : a ∈ l) (hb : b ∈ l) (hpid : a.productId = b.productId) : a = b := by
  induction l with
  | nil => cases ha
  | cons x xs ih =>
    simp only [List.map_cons, List.nodup_cons] at h
    rcases List.mem_cons.1 ha with rfl | ha' <;>
      rcases List.mem_cons.1 hb with rfl | hb'
    · rfl
    · exact absurd (List.mem_map.2 ⟨b, hb', hpid.symm⟩) h.1
    · exact absurd (List.mem_map.2 ⟨a, ha', hpid⟩) h.1
    · exact ih h.2 ha' hb'

/-- Master invariant of the `productMap` building loop of
`searchProductEmbedding`: members come from the accumulator or the input,
keys stay duplicate-free, every accumulator/input entry is dominated by a
surviving entry with its key, and every surviving entry dominates all input
entries with its key. -/
theorem foldl_insertKeepHigher_spec (l : List SPEntry) :
    ∀ acc : List SPEntry, ((acc.map (fun x => x.productId)).Nodup) →
    (∀ x ∈ l.foldl insertKeepHigher acc, x ∈ acc ∨ x ∈ l) ∧
    (((l.foldl insertKeepHigher acc).map (fun x => x.productId)).Nodup) ∧
    (∀ a ∈ acc, ∃ x ∈ l.foldl insertKeepHigher acc,
        x.productId = a.productId ∧ a.score ≤ x.score) ∧
    (∀ c ∈ l, ∃ x ∈ l.foldl insertKeepHigher acc,
        x.productId = c.productId ∧ c.score ≤ x.score) ∧
    (∀ x ∈ l.foldl insertKeepHigher acc, ∀ c ∈ l,
        c.productId = x.productId → c.score ≤ x.score) := by
  induction l with
  | nil =>
    intro acc hkeys
    refine ⟨fun x hx => Or.inl hx, hkeys,
      fun a ha => ⟨a, ha, rfl, le_refl _⟩, fun c hc => absurd hc (by simp),
      fun x _ c hc => absurd hc (by simp)⟩
  | cons c cs ih =>
    intro acc hkeys
    have hkeys' := nodupKeys_insertKeepHigher c hkeys
    obtain ⟨ih1, ih2, ih3, ih4, ih5⟩ := ih (insertKeepHigher acc c) hkeys'
    simp only [List.foldl_cons]
    refine ⟨?_, ih2, ?_, ?_, ?_⟩
    · intro x hx
      rcases ih1 x hx with hx' | hx'
      · rcases mem_insertKeepHigher hx' with h | h
        · exact Or.inl h
        · exact Or.inr (h ▸ List.mem_cons_self _ _)
      · exact Or.inr (List.mem_cons_of_mem _ hx')
    · intro a ha
      obtain ⟨x', hx', hpid', hle'⟩ := dominates_insertKeepHigher c ha
      obtain ⟨x, hx, hpid, hle⟩ := ih3 x' hx'
      exact ⟨x, hx, hpid.trans hpid', le_trans hle' hle⟩
    · intro d hd
      rcases List.mem_cons.1 hd with rfl | hd'
      · obtain ⟨x', hx', hpid', hle'⟩ := atKey_insertKeepHigher acc d
        obtain ⟨x, hx, hpid, hle⟩ := ih3 x' hx'
        exact ⟨x, hx, hpid.trans hpid', le_trans hle' hle⟩
      · exact ih4 d hd'
    · intro x hx d hd hpid
      rcases List.mem_cons.1 hd with rfl | hd'
      · obtain ⟨x', hx', hpid', hle'⟩ := atKey_insertKeepHigher acc d
        obtain ⟨x'', hx'', hpid'', hle''⟩ := ih3 x' hx'
        have : x'' = x :=
          eq_of_nodupKeys ih2 hx'' hx (hpid''.trans (hpid'.trans hpid))
        exact le_trans hle' (this ▸ hle'')
      · exact ih5 x hx d hd' hpid

lemma mem_mergeKeepHigher {l : List SPEntry} {x : SPEntry}
    (hx : x ∈ mergeKeepHigher l) : x ∈ l := by
  rcases (foldl_insertKeepHigher_spec l [] (by simp)).1 x hx with h | h
  · cases h
  · exact h

lemma nodupKeys_mergeKeepHigher (l : List SPEntry) :
    ((mergeKeepHigher l).map (fun x => x.productId)).Nodup :=
  (foldl_insertKeepHigher_spec l [] (by simp)).2.1

lemma exists_mergeKeepHigher {l : List SPEntry} {c : SPEntry} (hc : c ∈ l) :
    ∃ x ∈ mergeKeepHigher l, x.productId = c.productId ∧ c.score ≤ x.score :=
  (foldl_insertKeepHigher_spec l [] (by simp)).2.2.2.1 c hc

lemma max_mergeKeepHigher {l : List SPEntry} {x : SPEntry}
    (hx : x ∈ mergeKeepHigher l) :
    ∀ c ∈ l, c.productId = x.productId → c.score ≤ x.score :=
  (foldl_insertKeepHigher_spec l [] (by simp)).2.2.2.2 x hx

lemma insertDesc_perm (x : SPEntry) (l : List SPEntry) :
    List.Perm (insertDesc x l) (x :: l) := by
  induction l with
  | nil => rfl
  | cons y ys ih =>
    unfold insertDesc
    by_cases h : y.score ≤ x.score
    · simp [h]
    · simp only [h, if_false]
      exact (ih.cons y).trans (List.Perm.swap x y ys)

lemma sortByScoreDesc_perm (l : List SPEntry) : List.Perm (sortByScoreDesc l) l := by
  induction l with
  | nil => rfl
  | cons x xs ih =>
    have : sortByScoreDesc (x :: xs) = insertDesc x (sortByScoreDesc xs) := rfl
    rw [this]
    exact (insertDesc_perm x _).trans (ih.cons x)

lemma sorted_insertDesc (x : SPEntry) {l : List SPEntry}
    (h : l.Pairwise (fun a b => b.score ≤ a.score)) :
    (insertDesc x l).Pairwise (fun a b => b.score ≤ a.score) := by
  induction l with
  | nil => simp [insertDesc]
  | cons y ys ih =>
    rw [List.pairwise_cons] at h
    unfold insertDesc
    by_cases hyx : y.score ≤ x.score
    · simp only [hyx, if_true]
      rw [List.pairwise_cons]
      refine ⟨?_, List.pairwise_cons.2 h⟩
      intro z hz
      rcases List.mem_cons.1 hz with rfl | hz'
      · exact hyx
      · exact le_trans (h.1 z hz') hyx
    · simp only [hyx, if_false]
      rw [List.pairwise_cons]
      refine ⟨?_, ih h.2⟩
      intro z hz
      rcases List.mem_cons.1 ((insertDesc_perm x ys).mem_iff.1 hz) with rfl | hz'
      · exact le_of_lt (not_le.1 hyx)
      · exact h.1 z hz'

lemma sorted_sortByScoreDesc (l : List SPEntry) :
    (sortByScoreDesc l).Pairwise (fun a b => b.score ≤ a.score) := by
  induction l with
  | nil => simp [sortByScoreDesc]
  | cons x xs ih => exact sorted_insertDesc x ih

/-- One step of both dedup loops in `ragSearch`'s merge:
`if (!combinedProductMap.has(key)) combinedProductMap.set(key, product)`,
the map's values kept in insertion order. -/
def addIfAbsent (acc : List RankedProduct) (r : RankedProduct) :
    List RankedProduct :=
  if acc.any (fun x => x.sourceId == r.sourceId) then acc else acc ++ [r]

/-- One step of the semantic `forEach` of `ragSearch`'s merge: resolve the
hit's `productId` against the catalog
(`semanticProducts.find((p) => p.sourceId === productId)`; `semanticProducts`
is exactly the catalog rows whose `sourceId` is among the semantic ids, so
the lookup is modelled directly on the catalog), skip unresolved ids, tag
`_searchMethod = "semantic"` and attach the hit's score as `_searchScore`. -/
def semStep (catalog : List Product) (acc : List RankedProduct)
    (e : SPEntry) : List RankedProduct :=
  match catalog.find? (fun p => p.sourceId == e.productId) with
  | none => acc
  | some p =>
      addIfAbsent acc
        { sourceId := p.sourceId, method := some MatchMethod.semantic,
          score := some e.score }

/-- The first `forEach` of `ragSearch`'s merge: semantic hits, in order. -/
def addSemantic (semanticResults : List SPEntry) (catalog : List Product) :
    List RankedProduct :=
  semanticResults.foldl (semStep catalog) []

/-- The second `forEach`: append exact matches not already present, tagged
`_searchMethod = "exact"` (the source attaches no `_searchScore` to them). -/
def addExact (exactResults : List Product) (base : List RankedProduct) :
    List RankedProduct :=
  exactResults.foldl
    (fun acc p =>
      addIfAbsent acc
        { sourceId := p.sourceId, method := some MatchMethod.exact,
          score := none })
    base

/-- `MultimodalProcessor.ragSearch`, as a function of the two branch result
lists and the catalog: semantic hits first in their given order,
deduplicated by `sourceId`, then exact matches not already present, then
`Array.from(...).slice(0, limit)`. -/
def ragSearch (semanticResults : List SPEntry)
    (catalog exactResults : List Product) (limit : ℕ) : List RankedProduct :=
  (addExact exactResults (addSemantic semanticResults catalog)).take limit

lemma keys_addIfAbsent_superset {acc : List RankedProduct}
    (r : RankedProduct) {k : String}
    (hk : k ∈ acc.map (fun x => x.sourceId)) :
    k ∈ (addIfAbsent acc r).map (fun x => x.sourceId) := by
  unfold addIfAbsent
  by_cases hany : acc.any (fun x => x.sourceId == r.sourceId)
  · rwa [if_pos hany]
  · rw [if_neg hany, List.map_append]
    exact List.mem_append_left _ hk

lemma self_mem_keys_addIfAbsent (acc : List RankedProduct)
    (r : RankedProduct) :
    r.sourceId ∈ (addIfAbsent acc r).map (fun x => x.sourceId) := by
  unfold addIfAbsent
  by_cases hany : acc.any (fun x => x.sourceId == r.sourceId)
  · rw [if_pos hany]
    simp only [List.any_eq_true, beq_iff_eq] at hany
    obtain ⟨x, hx, hxe⟩ := hany
    exact List.mem_map.2 ⟨x, hx, hxe⟩
  · rw [if_neg hany, List.map_append]
    exact List.mem_append_right _ (by simp)

lemma nodupKeys_addIfAbsent {acc : List RankedProduct} (r : RankedProduct)
    (h : (acc.map (fun x => x.sourceId)).Nodup) :
    ((addIfAbsent acc r).map (fun x => x.sourceId)).Nodup := by
  unfold addIfAbsent
  by_cases hany : acc.any (fun x => x.sourceId == r.sourceId)
  · rwa [if_pos hany]
  · rw [if_neg hany, List.map_append, List.nodup_append]
    refine ⟨h, List.nodup_singleton _, ?_⟩
    intro a ha
    obtain ⟨y, hy, hye⟩ := List.mem_map.1 ha
    simp only [List.map_cons, List.map_nil, List.mem_singleton]
    intro hcontra
    simp only [List.any_eq_true, beq_iff_eq] at hany
    exact hany ⟨y, hy, hye.trans hcontra⟩

lemma mem_addIfAbsent {acc : List RankedProduct} {r x : RankedProduct}
    (hx : x ∈ addIfAbsent acc r) : x ∈ acc ∨ x = r := by
  unfold addIfAbsent at hx
  by_cases hany : acc.any (fun y => y.sourceId == r.sourceId)
  · rw [if_pos hany] at hx; exact Or.inl hx
  · rw [if_neg hany] at hx; simpa using hx

lemma mem_semFold {catalog : List Product} :
    ∀ {sem : List SPEntry} {acc : List RankedProduct} {x : RankedProduct},
    x ∈ sem.foldl (semStep catalog) acc →
    x ∈ acc ∨ (x.method = some MatchMethod.semantic ∧
      ∃ e ∈ sem, x.sourceId = e.productId ∧ x.score = some e.score) := by
  intro sem
  induction sem with
  | nil => intro acc x hx; exact Or.inl hx
  | cons e es ih =>
    intro acc x hx
    simp only [List.foldl_cons] at hx
    rcases ih hx with hx' | hx'
    · unfold semStep at hx'
      cases hfind : catalog.find? (fun p => p.sourceId == e.productId) with
      | none => rw [hfind] at hx'; exact Or.inl hx'
      | some p =>
        rw [hfind] at hx'
        rcases mem_addIfAbsent hx' with h | h
        · exact Or.inl h
        · refine Or.inr ⟨by rw [h], e, List.mem_cons_self _ _, ?_, by rw [h]⟩
          have := List.find?_some hfind
          simp only [beq_iff_eq] at this
          rw [h]
          exact this
    · exact Or.inr ⟨hx'.1, hx'.2.elim fun e' he' =>
        ⟨e', List.mem_cons_of_mem _ he'.1, he'.2⟩⟩

lemma keys_mono_semFold {catalog : List Product} :
    ∀ (sem : List SPEntry) (acc : List RankedProduct) {k : String},
    k ∈ acc.map (fun x => x.sourceId) →
    k ∈ (sem.foldl (semStep catalog) acc).map (fun x => x.sourceId) := by
  intro sem
  induction sem with
  | nil => intro acc k hk; exact hk
  | cons e es ih =>
    intro acc k hk
    simp only [List.foldl_cons]
    apply ih
    unfold semStep
    cases hfind : catalog.find? (fun p => p.sourceId == e.productId) with
    | none => exact hk
    | some p => exact keys_addIfAbsent_superset _ hk

lemma mem_keys_semFold {catalog : List Product} :
    ∀ {sem : List SPEntry} (acc : List RankedProduct) {e : SPEntry},
    e ∈ sem →
    (catalog.find? (fun p => p.sourceId == e.productId)).isSome →
    e.productId ∈ (sem.foldl (semStep catalog) acc).map
      (fun x => x.sourceId) := by
  intro sem
  induction sem with
  | nil => intro acc e he; cases he
  | cons c cs ih =>
    intro acc e he hres
    rcases List.mem_cons.1 he with rfl | he'
    · simp only [List.foldl_cons]
      apply keys_mono_semFold
      unfold semStep
      cases hfind : catalog.find? (fun p => p.sourceId == e.productId) with
      | none => rw [hfind] at hres; cases hres
      | some p =>
        have hpid : p.sourceId = e.productId := by
          have := List.find?_some hfind
          simpa using this
        rw [← hpid]
        exact self_mem_keys_addIfAbsent _ _
    · simp only [List.foldl_cons]
      exact ih _ he' hres

lemma nodupKeys_semFold {catalog : List Product} :
    ∀ (sem : List SPEntry) (acc : List RankedProduct),
    (acc.map (fun x => x.sourceId)).Nodup →
    ((sem.foldl (semStep catalog) acc).map (fun x => x.sourceId)).Nodup := by
  intro sem
  induction sem with
  | nil => intro acc h; exact h
  | cons e es ih =>
    intro acc h
    simp only [List.foldl_cons]
    apply ih
    unfold semStep
    cases catalog.find? (fun p => p.sourceId == e.productId) with
    | none => exact h
    | some p => exact nodupKeys_addIfAbsent _ h

lemma addExact_structure :
    ∀ (exactResults : List Product) (base : List RankedProduct),
    ∃ tail, addExact exactResults base = base ++ tail ∧
      (∀ r ∈ tail, r.method = some MatchMethod.exact ∧ r.score = none ∧
        r.sourceId ∉ base.map (fun x => x.sourceId)) ∧
      List.Sublist (tail.map (fun r => r.sourceId))
        (exactResults.map (fun p => p.sourceId)) := by
  intro exactResults
  induction exactResults with
  | nil => exact fun base => ⟨[], by simp [addExact], by simp, by simp⟩
  | cons p ps ih =>
    intro base
    show ∃ tail, ps.foldl _ (addIfAbsent base _) = base ++ tail ∧ _
    by_cases hany : base.any (fun x =>
      x.sourceId == (RankedProduct.mk p.sourceId
        (some MatchMethod.exact) none).sourceId)
    · obtain ⟨tail, heq, hprops, hsub⟩ := ih base
      refine ⟨tail, ?_, hprops, hsub.cons p.sourceId⟩
      rw [← heq]
      show ps.foldl _ (addIfAbsent base _) = _
      rw [addIfAbsent, if_pos hany]
      rfl
    · obtain ⟨tail', heq, hprops, hsub⟩ :=
        ih (base ++ [⟨p.sourceId, some MatchMethod.exact, none⟩])
      refine ⟨⟨p.sourceId, some MatchMethod.exact, none⟩ :: tail', ?_, ?_, ?_⟩
      · show ps.foldl _ (addIfAbsent base _) = _
        rw [addIfAbsent, if_neg hany]
        show addExact ps (base ++ [⟨p.sourceId, some MatchMethod.exact, none⟩]) = _
        rw [heq, List.append_assoc]
        rfl
      · intro r hr
        rcases List.mem_cons.1 hr with rfl | hr'
        · refine ⟨rfl, rfl, ?_⟩
          intro hmem
          obtain ⟨y, hy, hye⟩ := List.mem_map.1 hmem
          simp only [List.any_eq_true, beq_iff_eq] at hany
          exact hany ⟨y, hy, hye⟩
        · obtain ⟨h1, h2, h3⟩ := hprops r hr'
          refine ⟨h1, h2, fun hmem => h3 ?_⟩
          rw [List.map_append]
          exact List.mem_append_left _ hmem
      · simpa using List.Sublist.cons₂ p.sourceId hsub

lemma nodupKeys_addExact :
    ∀ (exactResults : List Product) (base : List RankedProduct),
    (base.map (fun x => x.sourceId)).Nodup →
    ((addExact exactResults base).map (fun x => x.sourceId)).Nodup := by
  intro exactResults
  induction exactResults with
  | nil => intro base h; exact h
  | cons p ps ih =>
    intro base h
    show ((ps.foldl _ (addIfAbsent base _)).map _).Nodup
    exact ih _ (nodupKeys_addIfAbsent _ h)

end MultimodalProcessor

open MultimodalProcessor

/-- Claim C8: in `searchProductEmbedding`, every hit from the image-vector
field carries a score equal to its raw similarity multiplied by `0.9` while
text-field hits keep their raw score; when the same `productId` appears in
both result sets the entry with the higher post-discount score is kept
(every surviving entry dominates all same-id combined entries); and the
merged list is sorted by descending score and truncated to the limit. -/
theorem searchProductEmbedding_discount_merge_sorted
    (textHits imageHits : List Hit) (limit : ℕ) (e : SPEntry)
    (he : e ∈ searchProductEmbedding textHits imageHits limit) :
    ((∃ h ∈ textHits, e = textEntry h ∧ e.score = h.score) ∨
      (∃ h ∈ imageHits, e = imageEntry h ∧
        e.score = h.score * (9 / 10 : ℚ))) ∧
    (∀ c ∈ combinedResults textHits imageHits,
      c.productId = e.productId → c.score ≤ e.score) ∧
    (searchProductEmbedding textHits imageHits limit).Pairwise
      (fun a b => b.score ≤ a.score) ∧
    (searchProductEmbedding textHits imageHits limit).length ≤ limit := by
  have hsorted := sorted_sortByScoreDesc
    (mergeKeepHigher (combinedResults textHits imageHits))
  have hmem : e ∈ mergeKeepHigher (combinedResults textHits imageHits) := by
    have h1 : e ∈ sortByScoreDesc
        (mergeKeepHigher (combinedResults textHits imageHits)) :=
      List.take_subset _ _ he
    exact (sortByScoreDesc_perm _).mem_iff.1 h1
  have hcomb := mem_mergeKeepHigher hmem
  refine ⟨?_, max_mergeKeepHigher hmem, ?_, List.length_take_le _ _⟩
  · rcases List.mem_append.1 hcomb with h | h
    · obtain ⟨h', hh', he'⟩ := List.mem_map.1 h
      refine Or.inl ⟨h', hh', he'.symm, ?_⟩
      rw [← he']
      rfl
    · obtain ⟨h', hh', he'⟩ := List.mem_map.1 h
      refine Or.inr ⟨h', hh', he'.symm, ?_⟩
      rw [← he']
      rfl
  · exact hsorted.sublist (List.take_sublist _ _)

/-- Closed witness for `searchProductEmbedding_discount_merge_sorted`:
a text hit and an image hit colliding on one product; the discounted image
score 9 beats the text score 1. -/
theorem searchProductEmbedding_discount_merge_sorted_witness :
    ((⟨"p1", 9, SType.image⟩ : SPEntry) ∈
      searchProductEmbedding [⟨"p1", 1⟩] [⟨"p1", 10⟩] 5) ∧
    (((∃ h ∈ ([⟨"p1", 1⟩] : List Hit),
        (⟨"p1", 9, SType.image⟩ : SPEntry) = textEntry h ∧
          (⟨"p1", 9, SType.image⟩ : SPEntry).score = h.score) ∨
      (∃ h ∈ ([⟨"p1", 10⟩] : List Hit),
        (⟨"p1", 9, SType.image⟩ : SPEntry) = imageEntry h ∧
          (⟨"p1", 9, SType.image⟩ : SPEntry).score =
            h.score * (9 / 10 : ℚ))) ∧
    (∀ c ∈ combinedResults [⟨"p1", 1⟩] [⟨"p1", 10⟩],
      c.productId = (⟨"p1", 9, SType.image⟩ : SPEntry).productId →
        c.score ≤ (⟨"p1", 9, SType.image⟩ : SPEntry).score) ∧
    (searchProductEmbedding [⟨"p1", 1⟩] [⟨"p1", 10⟩] 5).Pairwise
      (fun a b => b.score ≤ a.score) ∧
    (searchProductEmbedding [⟨"p1", 1⟩] [⟨"p1", 10⟩] 5).length ≤ 5) := by
  constructor
  · norm_num [searchProductEmbedding, sortByScoreDesc, mergeKeepHigher,
      combinedResults, insertKeepHigher, insertDesc, textEntry, imageEntry]
  · exact searchProductEmbedding_discount_merge_sorted _ _ _ _
      (by norm_num [searchProductEmbedding, sortByScoreDesc, mergeKeepHigher,
        combinedResults, insertKeepHigher, insertDesc, textEntry, imageEntry])

/-- Claim C4: the merged list returned by `MultimodalProcessor.ragSearch`
has at most `limit` entries and no two entries share a `sourceId`
(`productId`), for all branch results, catalogs and limits — hence for
every non-empty text query. -/
theorem ragSearch_limit_and_unique
    (semanticResults : List SPEntry) (catalog exactResults : List Product)
    (limit : ℕ) :
    (MultimodalProcessor.ragSearch semanticResults catalog exactResults
      limit).length ≤ limit ∧
    ((MultimodalProcessor.ragSearch semanticResults catalog exactResults
      limit).map (fun r => r.sourceId)).Nodup := by
  constructor
  · exact List.length_take_le _ _
  · have h := nodupKeys_addExact exactResults
      (addSemantic semanticResults catalog)
      (nodupKeys_semFold semanticResults [] (by simp))
    show (((addExact exactResults (addSemantic semanticResults
      catalog)).take limit).map (fun r => r.sourceId)).Nodup
    rw [List.map_take]
    exact h.sublist (List.take_sublist _ _)

lemma get_congr_of_eq {α : Type} {l l' : List α} (h : l = l') (k : ℕ)
    (hk : k < l.length) (hk' : k < l'.length) :
    l.get ⟨k, hk⟩ = l'.get ⟨k, hk'⟩ := by
  subst h; rfl

lemma get_take_append_left {α : Type} (S T : List α) (n k : ℕ)
    (hk : k < ((S ++ T).take n).length) (hkS : k < S.length) :
    ((S ++ T).take n).get ⟨k, hk⟩ = S.get ⟨k, hkS⟩ := by
  simp [List.getElem_take, List.getElem_append_left, hkS]

lemma get_take_append_right {α : Type} (S T : List α) (n k : ℕ)
    (hk : k < ((S ++ T).take n).length) (hkS : S.length ≤ k)
    (hkT : k - S.length < T.length) :
    ((S ++ T).take n).get ⟨k, hk⟩ = T.get ⟨k - S.length, hkT⟩ := by
  simp [List.getElem_take, List.getElem_append_right, hkS]

/-- Claim C1 (counterexample): with `limit = 1`, product `"P"` is returned
by both branches (semantic score 8 behind `"A"`'s 9, and an exact match),
yet `slice(0, limit)` truncates it out of the merged list entirely, so the
returned list does not contain it exactly once as the claim states. -/
theorem ragSearch_shared_hit_truncated_out :
    (∃ p ∈ ([⟨"P", "p", "c", "d"⟩] : List Product), p.sourceId = "P") ∧
    (∃ e ∈ ([⟨"A", 9, SType.text⟩, ⟨"P", 8, SType.text⟩] : List SPEntry),
      e.productId = "P") ∧
    ((MultimodalProcessor.ragSearch
        [⟨"A", 9, SType.text⟩, ⟨"P", 8, SType.text⟩]
        [⟨"A", "a", "c", "d"⟩, ⟨"P", "p", "c", "d"⟩]
        [⟨"P", "p", "c", "d"⟩] 1).map (fun r => r.sourceId)).count "P" = 0 := by
  refine ⟨⟨⟨"P", "p", "c", "d"⟩, by simp, rfl⟩,
    ⟨⟨"P", 8, SType.text⟩, by simp, rfl⟩, ?_⟩
  decide

/-- Claim C1 (amended): if a product is returned by both branches, its id
resolves against the catalog, and fewer than `limit` deduplicated semantic
hits precede it, then the merged list returned by `ragSearch` contains it
exactly once, tagged `semantic`, at the position fixed by the semantic
branch's order; every exact-tagged entry sits after all semantic-tagged
entries, and the exact-tagged entries are appended in catalog order and
only for ids not already present among the semantic hits. -/
theorem ragSearch_merge_semantic_precedence
    (semanticResults : List SPEntry) (catalog exactResults : List Product)
    (limit : ℕ) (pid : String)
    (hres : (catalog.find? (fun p => p.sourceId == pid)).isSome)
    (hsem : ∃ e ∈ semanticResults, e.productId = pid)
    (_hex : ∃ p ∈ exactResults, p.sourceId = pid)
    (hrank : ((addSemantic semanticResults catalog).map
      (fun r => r.sourceId)).indexOf pid < limit) :
    ((MultimodalProcessor.ragSearch semanticResults catalog exactResults
        limit).map (fun r => r.sourceId)).count pid = 1 ∧
    (∃ hlt : ((addSemantic semanticResults catalog).map
        (fun r => r.sourceId)).indexOf pid <
        (MultimodalProcessor.ragSearch semanticResults catalog exactResults
          limit).length,
      ((MultimodalProcessor.ragSearch semanticResults catalog exactResults
        limit).get ⟨_, hlt⟩).sourceId = pid ∧
      ((MultimodalProcessor.ragSearch semanticResults catalog exactResults
        limit).get ⟨_, hlt⟩).method = some MatchMethod.semantic) ∧
    (∀ (i j : ℕ)
      (hi : i < (MultimodalProcessor.ragSearch semanticResults catalog
        exactResults limit).length)
      (hj : j < (MultimodalProcessor.ragSearch semanticResults catalog
        exactResults limit).length), i ≤ j →
      ((MultimodalProcessor.ragSearch semanticResults catalog exactResults
        limit).get ⟨i, hi⟩).method = some MatchMethod.exact →
      ((MultimodalProcessor.ragSearch semanticResults catalog exactResults
        limit).get ⟨j, hj⟩).method = some MatchMethod.exact) ∧
    List.Sublist
      (((MultimodalProcessor.ragSearch semanticResults catalog exactResults
        limit).filter (fun r => r.method == some MatchMethod.exact)).map
          (fun r => r.sourceId))
      (exactResults.map (fun p => p.sourceId)) ∧
    (∀ r ∈ MultimodalProcessor.ragSearch semanticResults catalog exactResults
        limit, r.method = some MatchMethod.exact →
      r.sourceId ∉ (addSemantic semanticResults catalog).map
        (fun x => x.sourceId)) := by
  obtain ⟨e, he, hepid⟩ := hsem
  have hres' : (catalog.find? (fun p => p.sourceId == e.productId)).isSome :=
    by rw [hepid]; exact hres
  have hmemS : pid ∈ (addSemantic semanticResults catalog).map
      (fun r => r.sourceId) := by
    have := mem_keys_semFold ([] : List RankedProduct) he hres'
    rwa [hepid] at this
  obtain ⟨tail, htail, hprops, hsub⟩ :=
    addExact_structure exactResults (addSemantic semanticResults catalog)
  have hSsem : ∀ x ∈ addSemantic semanticResults catalog,
      x.method = some MatchMethod.semantic := by
    intro x hx
    rcases mem_semFold hx with h | h
    · exact absurd h (List.not_mem_nil x)
    · exact h.1
  have hR : MultimodalProcessor.ragSearch semanticResults catalog exactResults
      limit = ((addSemantic semanticResults catalog) ++ tail).take limit := by
    show (addExact exactResults (addSemantic semanticResults catalog)).take
      limit = _
    rw [htail]
  have hidxS : ((addSemantic semanticResults catalog).map
      (fun r => r.sourceId)).indexOf pid <
      (addSemantic semanticResults catalog).length := by
    have := List.indexOf_lt_length.2 hmemS
    simpa using this
  have hidxR : ((addSemantic semanticResults catalog).map
      (fun r => r.sourceId)).indexOf pid <
      (MultimodalProcessor.ragSearch semanticResults catalog exactResults
        limit).length := by
    rw [hR, List.length_take]
    refine lt_min hrank ?_
    rw [List.length_append]
    omega
  have hgetR : ∀ (k : ℕ)
      (hk : k < (MultimodalProcessor.ragSearch semanticResults catalog
        exactResults limit).length)
      (hkS : k < (addSemantic semanticResults catalog).length),
      (MultimodalProcessor.ragSearch semanticResults catalog exactResults
        limit).get ⟨k, hk⟩ =
      (addSemantic semanticResults catalog).get ⟨k, hkS⟩ := by
    intro k hk hkS
    have hk' : k < (((addSemantic semanticResults catalog) ++ tail).take
        limit).length := by rw [← hR]; exact hk
    rw [get_congr_of_eq hR k hk hk']
    exact get_take_append_left _ _ _ _ hk' hkS
  have hgetpid : ((MultimodalProcessor.ragSearch semanticResults catalog
      exactResults limit).get ⟨_, hidxR⟩).sourceId = pid := by
    rw [hgetR _ hidxR hidxS]
    have h3 : ((addSemantic semanticResults catalog).map
        (fun r => r.sourceId)).get ⟨_, by simpa using hidxS⟩ = pid :=
      List.indexOf_get (by simpa using hidxS)
    rw [List.get_eq_getElem, List.getElem_map] at h3
    rw [List.get_eq_getElem]
    exact h3
  refine ⟨?_, ⟨hidxR, hgetpid, ?_⟩, ?_, ?_, ?_⟩
  · -- count = 1
    have hnodup : (((MultimodalProcessor.ragSearch semanticResults catalog
        exactResults limit)).map (fun r => r.sourceId)).Nodup :=
      (ragSearch_limit_and_unique semanticResults catalog exactResults
        limit).2
    apply List.count_eq_one_of_mem hnodup
    exact List.mem_map.2 ⟨_, List.get_mem _ _ _, hgetpid⟩
  · -- the entry at the semantic position is tagged semantic
    rw [hgetR _ hidxR hidxS]
    exact hSsem _ (List.get_mem _ _ _)
  · -- exact entries sit after all semantic entries
    intro i j hi hj hij hexact
    by_cases hjS : j < (addSemantic semanticResults catalog).length
    · have hiS : i < (addSemantic semanticResults catalog).length :=
        lt_of_le_of_lt hij hjS
      rw [hgetR i hi hiS] at hexact
      have := hSsem _ (List.get_mem (addSemantic semanticResults catalog)
        i hiS)
      rw [this] at hexact
      cases hexact
    · push_neg at hjS
      have hj' : j < (((addSemantic semanticResults catalog) ++ tail).take
          limit).length := by rw [← hR]; exact hj
      have hjapp : j < ((addSemantic semanticResults catalog) ++ tail).length
        := by
        rw [List.length_take] at hj'
        omega
      have hjT : j - (addSemantic semanticResults catalog).length <
          tail.length := by
        rw [List.length_append] at hjapp
        omega
      rw [get_congr_of_eq hR j hj hj',
        get_take_append_right _ _ _ _ hj' hjS hjT]
      exact (hprops _ (List.get_mem tail _ _)).1
  · -- exact entries appear in catalog order
    have h1 : List.Sublist (MultimodalProcessor.ragSearch semanticResults
        catalog exactResults limit)
        ((addSemantic semanticResults catalog) ++ tail) := by
      rw [hR]; exact List.take_sublist _ _
    have h2 := h1.filter (fun r => r.method == some MatchMethod.exact)
    rw [List.filter_append] at h2
    have h3 : (addSemantic semanticResults catalog).filter
        (fun r => r.method == some MatchMethod.exact) = [] := by
      rw [List.filter_eq_nil_iff]
      intro a ha
      rw [hSsem a ha]
      decide
    have h4 : tail.filter (fun r => r.method == some MatchMethod.exact) =
        tail := by
      rw [List.filter_eq_self]
      intro a ha
      rw [(hprops a ha).1]
      rfl
    rw [h3, h4, List.nil_append] at h2
    exact (h2.map (fun r => r.sourceId)).trans hsub
  · -- exact entries only for ids absent from the semantic part
    intro r hr hrexact
    have hr' : r ∈ (addSemantic semanticResults catalog) ++ tail := by
      rw [hR] at hr
      exact List.take_subset _ _ hr
    rcases List.mem_append.1 hr' with h | h
    · rw [hSsem r h] at hrexact
      cases hrexact
    · exact (hprops r h).2.2

/-- Closed witness for `ragSearch_merge_semantic_precedence`: with
`limit = 2` the shared product `"P"` survives truncation and is returned
exactly once. -/
theorem ragSearch_merge_semantic_precedence_witness :
    ((MultimodalProcessor.ragSearch
        [⟨"A", 9, SType.text⟩, ⟨"P", 8, SType.text⟩]
        [⟨"A", "a", "c", "d"⟩, ⟨"P", "p", "c", "d"⟩]
        [⟨"P", "p", "c", "d"⟩] 2).map (fun r => r.sourceId)).count "P" = 1 :=
  (ragSearch_merge_semantic_precedence
    [⟨"A", 9, SType.text⟩, ⟨"P", 8, SType.text⟩]
    [⟨"A", "a", "c", "d"⟩, ⟨"P", "p", "c", "d"⟩]
    [⟨"P", "p", "c", "d"⟩] 2 "P" (by decide)
    ⟨⟨"P", 8, SType.text⟩, by simp, rfl⟩
    ⟨⟨"P", "p", "c", "d"⟩, by simp, rfl⟩ (by decide)).1

/-- Errors thrown inside the search components (`throw new Error(...)` /
rejected promises), before the route-level catch wraps them. -/
inductive JsError where
  | emptyInput
  | milvusUnreachable
  | llmUnavailable
  | typeError
deriving DecidableEq, Repr

/-- The route files' `class AppError extends Error`: what the route-level
`catch` blocks rethrow to the caller. -/
structure AppError where
  message : String
deriving DecidableEq, Repr

deriving instance DecidableEq for Except

/-- Case-insensitive substring test: the model of MongoDB's
`{ $regex: keyword, $options: "i" }` filter for keywords without regex
metacharacters (the only kind exercised here). -/
def containsCI (hay pat : String) : Bool :=
  let h := hay.toList.map Char.toLower
  let p := pat.toList.map Char.toLower
  (List.range (h.length + 1)).any (fun i => p.isPrefixOf (h.drop i))

/-- JavaScript's `String.prototype.trim()`: strip leading and trailing
whitespace (structural model, so that concrete runs reduce). -/
def jsTrim (s : String) : String :=
  String.mk
    (((s.toList.dropWhile Char.isWhitespace).reverse.dropWhile
      Char.isWhitespace).reverse)

namespace Orchestrator

/-- The external services consulted by the search path, as oracles:
whether the Milvus probe succeeds, the text-embedding model, the two
Milvus vector searches (by field), and the MongoDB product catalog. -/
structure Env where
  milvusReachable : Bool
  embed : String → List ℚ
  textSearch : List ℚ → ℕ → List Hit
  imageSearch : List ℚ → ℕ → List Hit
  catalog : List Product

/-- `MultimodalProcessor.getEmbedding(text, false)` on the query path
(`useExpansion` is always `false` for searches): trim, throw
`"Input text cannot be empty"` on an empty result, otherwise run the
embedding model on the cleaned text. -/
def getEmbedding (env : Env) (text : String) : Except JsError (List ℚ) :=
  if jsTrim text = "" then Except.error JsError.emptyInput
  else Except.ok (env.embed (jsTrim text))

/-- `MultimodalProcessor.searchProductEmbedding(searchText, limit)` with its
oracle calls: embed the query, search the text field with `limit * 2` and
the image field with `limit`, then merge (see
`MultimodalProcessor.searchProductEmbedding`). An embedding failure
propagates (the `catch` rethrows). -/
def searchProductEmbeddingM (env : Env) (searchText : String) (limit : ℕ) :
    Except JsError (List SPEntry) :=
  match getEmbedding env searchText with
  | Except.error e => Except.error e
  | Except.ok v =>
      Except.ok (MultimodalProcessor.searchProductEmbedding
        (env.textSearch v (limit * 2)) (env.imageSearch v limit) limit)

/-- The exact branch of `MultimodalProcessor.ragSearch`: case-insensitive
substring match on name/category/description, capped at `limit` rows. -/
def exactSearch (env : Env) (query : String) (limit : ℕ) : List Product :=
  (env.catalog.filter (fun p =>
    containsCI p.name query || containsCI p.category query ||
      containsCI p.description query)).take limit

/-- `MultimodalProcessor.ragSearch(Product, query, limit)` with its oracle
calls: the two branches (exact capped at `limit`, semantic with
`limit * 2`), then the merge of `MultimodalProcessor.ragSearch`. A semantic
branch failure rejects the whole `Promise.all` and the `catch` rethrows. -/
def ragSearchM (env : Env) (query : String) (limit : ℕ) :
    Except JsError (List RankedProduct) :=
  match searchProductEmbeddingM env query (limit * 2) with
  | Except.error e => Except.error e
  | Except.ok sem =>
      Except.ok (MultimodalProcessor.ragSearch sem env.catalog
        (exactSearch env query limit) limit)

/-- `MultimodalProcessor.testConnection()`: returns `true` when
`milvusClient.getVersion()` succeeds, and rethrows the error when the index
is unreachable — it never returns `false`. -/
def testConnection (env : Env) : Except JsError Bool :=
  if env.milvusReachable then Except.ok true
  else Except.error JsError.milvusUnreachable

/-- `getAll(query)` of `products.js` / `part_008`: optional case-insensitive
keyword filter on name/category (only when the keyword is truthy), capped at
20 rows ("pick 20 even though it says getAll"). -/
def getAll (keyword : Option String) (env : Env) : List Product :=
  match keyword with
  | none => env.catalog.take 20
  | some k =>
      if k = "" then env.catalog.take 20
      else
        (env.catalog.filter (fun p =>
          containsCI p.name k || containsCI p.category k)).take 20

/-- A plain catalog document returned without any search decoration
(`_searchMethod` / `_searchScore` absent). -/
def plainRanked (p : Product) : RankedProduct :=
  { sourceId := p.sourceId, method := none, score := none }

/-- The route-level `ragSearch(queryObject)` of `products.js`: falsy keyword
short-circuits to `getAll({})`; otherwise trim, probe the vector index
(`testConnection`), run the RAG search with limit 10, fall back to
`getAll({ keyword })` on empty results; any thrown error is wrapped by the
`catch` into `AppError("Failed to search Product")` and rethrown. The
`if (!isConnected)` fallback branch is kept from the source even though
`testConnection` can never return `false`. -/
def pjRagSearch (env : Env) (queryObject : Option String) :
    Except AppError (List RankedProduct) :=
  match queryObject with
  | none => Except.ok ((getAll none env).map plainRanked)
  | some q =>
      if q = "" then Except.ok ((getAll none env).map plainRanked)
      else
        match testConnection env with
        | Except.error _ => Except.error ⟨"Failed to search Product"⟩
        | Except.ok isConnected =>
            if isConnected = false then
              Except.ok ((getAll (some (jsTrim q)) env).map plainRanked)
            else
              match ragSearchM env (jsTrim q) 10 with
              | Except.error _ => Except.error ⟨"Failed to search Product"⟩
              | Except.ok results =>
                  if results.isEmpty then
                    Except.ok ((getAll (some (jsTrim q)) env).map plainRanked)
                  else Except.ok results

end Orchestrator

/-- Claim C2 (divergence theorem): when the vector index is unreachable, the
route-level `ragSearch` raises `AppError` to the caller for every non-empty
query, instead of returning the exact-branch results: `testConnection`
rethrows instead of returning `false`, so the keyword-fallback branch is
unreachable and the `catch` wraps the connection error. -/
theorem pjRagSearch_unreachable_index_raises
    (env : Orchestrator.Env) (q : String)
    (hr : env.milvusReachable = false) (hq : q ≠ "") :
    Orchestrator.pjRagSearch env (some q) =
      Except.error ⟨"Failed to search Product"⟩ := by
  simp [Orchestrator.pjRagSearch, Orchestrator.testConnection, hq, hr]

/-- Closed witness for `pjRagSearch_unreachable_index_raises`: the spec's
own degradation scenario, `searchByText("headphones", 10)` with the vector
index down, errors instead of degrading. -/
theorem pjRagSearch_unreachable_index_raises_witness :
    Orchestrator.pjRagSearch
      ⟨false, fun _ => [], fun _ _ => [], fun _ _ => [],
        [⟨"H", "wireless headphones", "audio", "over-ear"⟩]⟩
      (some "headphones") = Except.error ⟨"Failed to search Product"⟩ :=
  pjRagSearch_unreachable_index_raises _ "headphones" rfl (by decide)

/-- Claim C9 (counterexample): a whitespace-only query is truthy in the
route's `if (!query)` guard, so it is not short-circuited; it trims to the
empty string, `getEmbedding` throws `"Input text cannot be empty"`, and the
route raises `AppError` instead of returning the default listing. -/
theorem whitespace_query_raises_error :
    jsTrim " " = "" ∧
    Orchestrator.pjRagSearch
      ⟨true, fun _ => [], fun _ _ => [], fun _ _ => [], []⟩ (some " ") =
      Except.error ⟨"Failed to search Product"⟩ := by
  constructor
  · decide
  · decide

/-- Claim C9 (amended): a missing or strictly empty (falsy) query string
short-circuits to the plain default listing (`getAll` with no keyword —
first 20 catalog rows, no keyword or vector search) without error;
whitespace-only queries are not covered by the guard. -/
theorem empty_query_returns_default_listing (env : Orchestrator.Env) :
    Orchestrator.pjRagSearch env none =
      Except.ok ((Orchestrator.getAll none env).map Orchestrator.plainRanked) ∧
    Orchestrator.pjRagSearch env (some "") =
      Except.ok ((Orchestrator.getAll none env).map Orchestrator.plainRanked)
    := by
  constructor
  · rfl
  · simp [Orchestrator.pjRagSearch]

namespace Orchestrator

/-- The accepted data-URL prefixes of `validateImageData`. -/
def validImagePrefixes : List String :=
  ["data:image/jpeg;base64,", "data:image/png;base64,",
   "data:image/gif;base64,", "data:image/webp;base64,"]

/-- One character of the `^[A-Za-z0-9+/=]+$` base64 check. -/
def isBase64Char (c : Char) : Bool :=
  c.isAlphanum || c = '+' || c = '/' || c = '='

/-- `validateImageData(base64Data)` of `part_008`: reject falsy input; strip
a recognized data-URL prefix, or, failing that, take the part after the
first comma when one is present; then require the remainder to be non-empty
and match the base64 character class. Returns the extracted `imageData` on
success. -/
def validateImageData (base64Data : Option String) : Option String :=
  match base64Data with
  | none => none
  | some s =>
      if s = "" then none
      else
        let chars := s.toList
        let imageData :=
          match validImagePrefixes.find?
              (fun pre => pre.toList.isPrefixOf chars) with
          | some pre => chars.drop pre.toList.length
          | none =>
              if chars.contains ',' then (chars.splitOn ',').getD 1 []
              else chars
        if imageData.length > 0 && imageData.all isBase64Char then
          some (String.mk imageData)
        else none

/-- `processImageSearch(base64Image)` of `part_008`, with the LLM caption
call as an oracle outcome. The returned pair of booleans traces the
temporary file: (written to `/tmp`, unlink attempted). Invalid input
returns `[]` before any file is written; after the file is written, the
`unlinkSync` (its own errors swallowed) sits after caption generation and
the RAG search, so a failure of either rethrows `AppError` without
deleting the file. -/
def processImageSearch (env : Env) (captionOutcome : Except JsError String)
    (base64Image : Option String) :
    Except AppError (List RankedProduct) × Bool × Bool :=
  match validateImageData base64Image with
  | none => (Except.ok [], false, false)
  | some _ =>
      match captionOutcome with
      | Except.error _ =>
          (Except.error ⟨"Failed to process image search"⟩, true, false)
      | Except.ok imageCaption =>
          match ragSearchM env imageCaption 10 with
          | Except.error _ =>
              (Except.error ⟨"Failed to process image search"⟩, true, false)
          | Except.ok results => (Except.ok results, true, true)

/-- The possible responses of the `/image-search` route handler. -/
inductive RouteResponse where
  | badRequest (message : String)
  | okEmpty
  | okList (data : List RankedProduct)
  | serverError (message : String)
deriving DecidableEq, Repr

/-- `router.post("/image-search")` of `part_008`: missing/falsy body image
and oversized payloads (`image.length > 2000000`) are rejected with a 400
before `processImageSearch` — and hence before any embedding-model, LLM,
vector-index or catalog call — is made. The boolean records whether
`processImageSearch` (the first step of which initializes the processor and
contacts the external services) was invoked. -/
def imageSearchRoute (env : Env) (captionOutcome : Except JsError String)
    (image : Option String) : RouteResponse × Bool :=
  match image with
  | none => (RouteResponse.badRequest "No image data provided", false)
  | some img =>
      if img = "" then
        (RouteResponse.badRequest "No image data provided", false)
      else if img.length > 2000000 then
        (RouteResponse.badRequest
          "Image too large, please use an image under 1.5MB", false)
      else
        match processImageSearch env captionOutcome (some img) with
        | (Except.error _, _, _) =>
            (RouteResponse.serverError "Failed to process image search", true)
        | (Except.ok results, _, _) =>
            if results.isEmpty then (RouteResponse.okEmpty, true)
            else (RouteResponse.okList results, true)

end Orchestrator

namespace MultimodalProcessor

/-- `MultimodalProcessor.enhancedImageSearch(Product, imageInput, limit)`:
concatenates the image-vector hits (`searchByImageBuffer`, untagged) with
the text-path hits for the LLM image analysis (`searchProductEmbedding`
output), then returns the full catalog documents for the union of product
ids via one `Product.find({ sourceId: { $in: ... } })` — i.e. plain catalog
rows in catalog order, without matchType tags, scores, dedup precedence or
ranking (the score-merging block of the source is commented out). -/
def enhancedImageSearch (visualResults : List Hit)
    (semanticResults : List SPEntry) (catalog : List Product) :
    List Product :=
  let topProductIds := visualResults.map (fun h => h.productId) ++
    semanticResults.map (fun e => e.productId)
  catalog.filter (fun p => topProductIds.contains p.sourceId)

lemma ragSearch_methods (semanticResults : List SPEntry)
    (catalog exactResults : List Product) (limit : ℕ) (r : RankedProduct)
    (hr : r ∈ ragSearch semanticResults catalog exactResults limit) :
    r.method = some MatchMethod.semantic ∨
      r.method = some MatchMethod.exact := by
  obtain ⟨tail, htail, hprops, _⟩ :=
    addExact_structure exactResults (addSemantic semanticResults catalog)
  have hr' : r ∈ addSemantic semanticResults catalog ++ tail := by
    have : r ∈ addExact exactResults (addSemantic semanticResults catalog) :=
      List.take_subset _ _ hr
    rwa [htail] at this
  rcases List.mem_append.1 hr' with h | h
  · left
    rcases mem_semFold h with h' | h'
    · exact absurd h' (List.not_mem_nil r)
    · exact h'.1
  · exact Or.inr (hprops r h).1

end MultimodalProcessor

/-- Claim C5 (divergence theorem): for every valid image payload, when
caption generation fails the temporary file has been written but the
function rethrows `AppError` without attempting the unlink — the cleanup
only runs on the success path. -/
theorem processImageSearch_failure_leaks_temp_file
    (env : Orchestrator.Env) (err : JsError) (img : Option String)
    (data : String) (hv : Orchestrator.validateImageData img = some data) :
    Orchestrator.processImageSearch env (Except.error err) img =
      (Except.error ⟨"Failed to process image search"⟩, true, false) := by
  unfold Orchestrator.processImageSearch
  rw [hv]

/-- Closed witness for `processImageSearch_failure_leaks_temp_file`: a valid
PNG data-URL whose caption request fails; the temp file is written
(`true`) and never unlinked (`false`). -/
theorem processImageSearch_failure_leaks_temp_file_witness :
    Orchestrator.processImageSearch
      ⟨true, fun _ => [], fun _ _ => [], fun _ _ => [], []⟩
      (Except.error JsError.llmUnavailable)
      (some "data:image/png;base64,QUJD") =
      (Except.error ⟨"Failed to process image search"⟩, true, false) :=
  processImageSearch_failure_leaks_temp_file _ JsError.llmUnavailable _
    "QUJD" (by decide)

/-- Claim C7: an oversized image payload (`image.length > 2000000`) is
rejected with a 400 response before `processImageSearch` — and with it any
call to the embedding model, LLM endpoint, vector index or keyword store —
is invoked. -/
theorem imageSearchRoute_oversized_rejected
    (env : Orchestrator.Env) (captionOutcome : Except JsError String)
    (img : String) (h : img.length > 2000000) :
    Orchestrator.imageSearchRoute env captionOutcome (some img) =
      (Orchestrator.RouteResponse.badRequest
        "Image too large, please use an image under 1.5MB", false) := by
  unfold Orchestrator.imageSearchRoute
  have himg : ¬(img = "") := by
    intro he
    rw [he] at h
    simp at h
  simp only [himg, if_false, if_pos h]

/-- Closed witness for `imageSearchRoute_oversized_rejected`: a payload of
2000001 characters. -/
theorem imageSearchRoute_oversized_rejected_witness :
    Orchestrator.imageSearchRoute
      ⟨true, fun _ => [], fun _ _ => [], fun _ _ => [], []⟩
      (Except.ok "caption")
      (some (String.mk (List.replicate 2000001 'A'))) =
      (Orchestrator.RouteResponse.badRequest
        "Image too large, please use an image under 1.5MB", false) :=
  imageSearchRoute_oversized_rejected _ _ _ (by
    show (List.replicate 2000001 'A').length > 2000000
    rw [List.length_replicate]
    norm_num)

/-- Claim C3 (counterexample): a concrete image query whose result is
non-empty yet contains no `visual`-tagged entry: the executed route path
(`processImageSearch`) only runs the caption through the text search path,
so every returned entry is tagged `semantic` or `exact` and no image-vector
search of the uploaded image is merged. -/
theorem imageSearch_no_visual_tag_cex :
    Orchestrator.processImageSearch
      ⟨true, fun _ => [], fun _ _ => [⟨"Y", 1⟩], fun _ _ => [],
        [⟨"Y", "y", "c", "d"⟩]⟩
      (Except.ok "cap") (some "data:image/png;base64,QUJD") =
      (Except.ok [⟨"Y", some MatchMethod.semantic, some 1⟩], true, true) ∧
    ∀ r ∈ ([⟨"Y", some MatchMethod.semantic, some 1⟩] : List RankedProduct),
      r.method ≠ some MatchMethod.visual := by
  constructor
  · decide
  · decide

/-- Claim C3 (amended): the executed image-search path returns only the
caption-driven text-path results — every entry is tagged `semantic` or
`exact`, never `visual` — and `enhancedImageSearch` (which does run both
searches but is not called by the route) returns plain catalog documents in
catalog order, without matchType tagging or precedence. -/
theorem imageSearch_caption_only_no_visual
    (env : Orchestrator.Env) (captionOutcome : Except JsError String)
    (img : Option String) (res : List RankedProduct) (created deleted : Bool)
    (h : Orchestrator.processImageSearch env captionOutcome img =
      (Except.ok res, created, deleted)) :
    (∀ r ∈ res, r.method = some MatchMethod.semantic ∨
      r.method = some MatchMethod.exact) ∧
    ∀ (visualResults : List Hit) (semanticResults : List SPEntry)
      (catalog : List Product),
      List.Sublist
        (enhancedImageSearch visualResults semanticResults catalog)
        catalog := by
  constructor
  · intro r hr
    unfold Orchestrator.processImageSearch at h
    split at h
    · simp only [Prod.mk.injEq, Except.ok.injEq] at h
      rw [← h.1] at hr
      exact absurd hr (List.not_mem_nil r)
    · split at h
      · simp at h
      · split at h
        · simp at h
        · next results heq =>
            simp only [Prod.mk.injEq, Except.ok.injEq] at h
            rw [← h.1] at hr
            unfold Orchestrator.ragSearchM at heq
            split at heq
            · cases heq
            · next sem hsem =>
                simp only [Except.ok.injEq] at heq
                rw [← heq] at hr
                exact MultimodalProcessor.ragSearch_methods _ _ _ _ r hr
  · intro visualResults semanticResults catalog
    exact List.filter_sublist _

/-- Closed witness for `imageSearch_caption_only_no_visual`, at the same
concrete image query as the counterexample. -/
theorem imageSearch_caption_only_no_visual_witness :
    (∀ r ∈ ([⟨"Y", some MatchMethod.semantic, some 1⟩] : List RankedProduct),
      r.method = some MatchMethod.semantic ∨
        r.method = some MatchMethod.exact) ∧
    ∀ (visualResults : List Hit) (semanticResults : List SPEntry)
      (catalog : List Product),
      List.Sublist
        (enhancedImageSearch visualResults semanticResults catalog)
        catalog :=
  imageSearch_caption_only_no_visual
    ⟨true, fun _ => [], fun _ _ => [⟨"Y", 1⟩], fun _ _ => [],
      [⟨"Y", "y", "c", "d"⟩]⟩
    (Except.ok "cap") (some "data:image/png;base64,QUJD")
    [⟨"Y", some MatchMethod.semantic, some 1⟩] true true (by decide)

namespace MultimodalProcessor

/-- One chat message of an LLM reply, as a JavaScript object: the `content`
property may be absent (`none` models `undefined`). -/
structure ChatMessage where
  role : String
  content : Option String
deriving DecidableEq, Repr

/-- One element of an OpenAI-style `choices` array. -/
structure LLMChoice where
  message : Option ChatMessage
deriving DecidableEq, Repr

/-- The JSON object returned by `generateCompletionSync`: either shape may
be (partially) present, as with any dynamically typed response. -/
structure LLMOutput where
  message : Option ChatMessage
  choices : List LLMChoice
deriving DecidableEq, Repr

/-- `config.llm.defaultProvider`: `"ollama"` (the default) reads
`output.message.content`, any other provider reads
`output.choices[0].message.content`. -/
inductive LLMProvider where
  | ollama
  | openaiCompatible
deriving DecidableEq, Repr

/-- `const isSearchQuery = !text.includes("|")` — selects between the two
instruction templates of `expandTextWithVLLM` (the only thing it changes
is the prompt sent to the LLM oracle). -/
def isSearchQuery (text : String) : Bool :=
  !(text.toList.contains '|')

/-- The provider-dependent property access `output.message.content` /
`output.choices[0].message.content`: accessing a property of `undefined`
throws a `TypeError`; reading an absent `content` yields `undefined`
without throwing. -/
def extractContent (provider : LLMProvider) (output : LLMOutput) :
    Except JsError (Option String) :=
  match provider with
  | LLMProvider.ollama =>
      match output.message with
      | none => Except.error JsError.typeError
      | some m => Except.ok m.content
  | LLMProvider.openaiCompatible =>
      match output.choices.head? with
      | none => Except.error JsError.typeError
      | some c =>
          match c.message with
          | none => Except.error JsError.typeError
          | some m => Except.ok m.content

/-- `MultimodalProcessor.expandTextWithVLLM(text)`: build the prompt (by
`isSearchQuery`), call the LLM (oracle `llm`, a function of the chosen
template), extract the reply text; the surrounding `try`/`catch` turns any
thrown error — request failure or a `TypeError` from the shape access —
into `return text`. The function is total (it never throws); its value is
`none` exactly when the source would `return undefined`. -/
def expandTextWithVLLM (provider : LLMProvider)
    (llm : Bool → Except JsError LLMOutput) (text : String) : Option String :=
  match llm (isSearchQuery text) with
  | Except.error _ => some text
  | Except.ok output =>
      match extractContent provider output with
      | Except.error _ => some text
      | Except.ok c => c

end MultimodalProcessor

/-- Claim C6 (counterexample): a malformed response whose `message` object
exists but lacks `content` makes `expandTextWithVLLM` return `undefined`
(`none`) — not the original input text — because
`output.message.content` evaluates to `undefined` without throwing, so the
`catch` never runs. -/
theorem expandText_missing_content_returns_undefined :
    expandTextWithVLLM LLMProvider.ollama
      (fun _ => Except.ok ⟨some ⟨"assistant", none⟩, []⟩) "headphones" =
      none ∧
    (none : Option String) ≠ some "headphones" := by
  constructor
  · rfl
  · decide

/-- Claim C6 (amended): `expandTextWithVLLM` never throws (it is total),
and returns the original text whenever the LLM request fails or the
response shape makes the property access throw; only a non-throwing
malformed shape (present `message` with absent `content`) escapes as
`undefined`. -/
theorem expandText_returns_original_on_failure
    (provider : LLMProvider) (llm : Bool → Except JsError LLMOutput)
    (text : String)
    (hfail : (∃ e, llm (isSearchQuery text) = Except.error e) ∨
      (∃ output, llm (isSearchQuery text) = Except.ok output ∧
        extractContent provider output = Except.error JsError.typeError)) :
    expandTextWithVLLM provider llm text = some text := by
  unfold expandTextWithVLLM
  rcases hfail with ⟨e, heq⟩ | ⟨output, hout, hextract⟩
  · rw [heq]
  · rw [hout]
    simp only [hextract]

/-- Closed witness for `expandText_returns_original_on_failure`: an
unreachable LLM endpoint leaves the query unchanged. -/
theorem expandText_returns_original_on_failure_witness :
    expandTextWithVLLM LLMProvider.ollama
      (fun _ => Except.error JsError.llmUnavailable) "headphones" =
      some "headphones" :=
  expandText_returns_original_on_failure LLMProvider.ollama
    (fun _ => Except.error JsError.llmUnavailable) "headphones"
    (Or.inl ⟨JsError.llmUnavailable, rfl⟩)

/-- The number of characters of the JavaScript decimal string
`n.toString()` for a natural number: 1 for `n = 0`, otherwise one digit
per division by ten. -/
def numDigits (n : ℕ) : ℕ :=
  if h : n < 10 then 1 else numDigits (n / 10) + 1
decreasing_by
  simp_wf
  exact Nat.div_lt_self (by omega) (by omega)

/-- The embedding-record primary key generated by `storeProductEmbedding`
and `populateProducts`:
`parseInt(Date.now().toString() + Math.floor(Math.random() * 1000))`,
i.e. the decimal concatenation of the wall-clock millisecond timestamp
`ts` and the random draw `rand` (`ts * 10 ^ numDigits rand + rand`; for the
16-digit magnitudes produced, `parseInt`'s double conversion is exact). -/
def genId (ts rand : ℕ) : ℕ :=
  ts * 10 ^ numDigits rand + rand

lemma numDigits_one {n : ℕ} (h : n < 10) : numDigits n = 1 := by
  unfold numDigits
  rw [dif_pos h]

lemma numDigits_two {n : ℕ} (h1 : 10 ≤ n) (h2 : n < 100) :
    numDigits n = 2 := by
  unfold numDigits
  rw [dif_neg (by omega)]
  rw [numDigits_one (by omega)]

lemma numDigits_three {n : ℕ} (h1 : 100 ≤ n) (h2 : n < 1000) :
    numDigits n = 3 := by
  unfold numDigits
  rw [dif_neg (by omega)]
  rw [numDigits_two (by omega) (by omega)]

/-- Claim C10 (counterexample): two distinct inserts — different
timestamps, different random draws — generate the same id, because decimal
concatenation is not injective: `1700000000000 ++ "12"` and
`17000000000001 ++ "2"` both parse to `170000000000012`. -/
theorem genId_distinct_inserts_collide :
    genId 1700000000000 12 = genId 17000000000001 2 ∧
    ((1700000000000, 12) : ℕ × ℕ) ≠ (17000000000001, 2) := by
  constructor
  · unfold genId
    rw [numDigits_two (by norm_num) (by norm_num),
      numDigits_one (by norm_num)]
    norm_num
  · decide

/-- Claim C10 (amended): the generated id is a deterministic function of
the wall-clock millisecond and a 0–999 random draw, with no retry;
uniqueness holds only in the restricted sense that two inserts in the same
millisecond with different random draws get different ids — across
milliseconds, collisions exist (see the counterexample). -/
theorem genId_unique_same_millisecond
    (ts r1 r2 : ℕ) (hts : 1 ≤ ts) (h1 : r1 < 1000) (h2 : r2 < 1000)
    (hne : r1 ≠ r2) : genId ts r1 ≠ genId ts r2 := by
  unfold genId
  rcases Nat.lt_or_ge r1 10 with ha | ha
  · rw [numDigits_one ha]
    rcases Nat.lt_or_ge r2 10 with hb | hb
    · rw [numDigits_one hb]
      norm_num
      omega
    · rcases Nat.lt_or_ge r2 100 with hb2 | hb2
      · rw [numDigits_two hb hb2]
        norm_num
        omega
      · rw [numDigits_three hb2 h2]
        norm_num
        omega
  · rcases Nat.lt_or_ge r1 100 with ha2 | ha2
    · rw [numDigits_two ha ha2]
      rcases Nat.lt_or_ge r2 10 with hb | hb
      · rw [numDigits_one hb]
        norm_num
        omega
      · rcases Nat.lt_or_ge r2 100 with hb2 | hb2
        · rw [numDigits_two hb hb2]
          norm_num
          omega
        · rw [numDigits_three hb2 h2]
          norm_num
          omega
    · rw [numDigits_three ha2 h1]
      rcases Nat.lt_or_ge r2 10 with hb | hb
      · rw [numDigits_one hb]
        norm_num
        omega
      · rcases Nat.lt_or_ge r2 100 with hb2 | hb2
        · rw [numDigits_two hb hb2]
          norm_num
          omega
        · rw [numDigits_three hb2 h2]
          norm_num
          omega

/-- Closed witness for `genId_unique_same_millisecond`: same millisecond,
random draws 5 and 6. -/
theorem genId_unique_same_millisecond_witness :
    genId 1700000000000 5 ≠ genId 1700000000000 6 :=
  genId_unique_same_millisecond 1700000000000 5 6 (by norm_num)
    (by norm_num) (by norm_num) (by norm_num)
